import Mathlib

/-!
Verification development for the ChildSpeechProcessing repository.

The definitions below are a shallow embedding of the Python sources:
  - children_voice_filter.py : role resolver and child filters
  - extract_wor.py           : whitespace-token segment builder
  - extract_wor_segments.py  : regex-based segment builder
  - classify_cha.py          : transcript quality classifier

A transcript is modelled as the list of raw lines produced by iterating
over the file, so each line normally still carries its trailing newline.
Python string operations are re-implemented over `List Char` so that all
definitions are executable and reduce by `decide` on concrete inputs.
-/

set_option maxRecDepth 4000

namespace ChildSpeech

/-! ## Python string primitives -/

/-- Characters treated as whitespace by Python `str.strip` / `str.split`. -/
def pyIsSpace (c : Char) : Bool :=
  c == ' ' || c == '\t' || c == '\n' || c == '\r' || c == Char.ofNat 11 || c == Char.ofNat 12

/-- Python `s.rstrip()`. -/
def pyRstrip (s : String) : String :=
  String.mk ((s.data.reverse.dropWhile pyIsSpace).reverse)

/-- Python `s.strip()`. -/
def pyStrip (s : String) : String :=
  String.mk (((s.data.dropWhile pyIsSpace).reverse.dropWhile pyIsSpace).reverse)

/-- Python `s.startswith(pre)`. -/
def pyStartsWith (s pre : String) : Bool :=
  pre.data.isPrefixOf s.data

/-- Substring test on character lists (used for Python `sub in s`). -/
def hasSubList (needle : List Char) : List Char → Bool
  | [] => needle.isEmpty
  | c :: t => needle.isPrefixOf (c :: t) || hasSubList needle t

/-- Python `sub in s`. -/
def strContainsSub (s sub : String) : Bool :=
  hasSubList sub.data s.data

/-- Python `s.replace(c, "")` for a single-character pattern. -/
def removeAllChar (c : Char) (s : String) : String :=
  String.mk (s.data.filter (fun d => !(d == c)))

/-- Python `s.lower()` (ASCII case folding, which covers the source inputs). -/
def pyLower (s : String) : String :=
  String.mk (s.data.map Char.toLower)

/-- Worker for `pySplit`: fuel-driven scan for the separator. -/
def splitSepGo (sep : List Char) : Nat → List Char → List Char → List (List Char)
  | 0, acc, rest => [acc.reverse ++ rest]
  | n + 1, acc, rest =>
    if sep.isPrefixOf rest then
      acc.reverse :: splitSepGo sep n [] (rest.drop sep.length)
    else
      match rest with
      | [] => [acc.reverse]
      | c :: t => splitSepGo sep n (c :: acc) t

/-- Python `s.split(sep)` for a non-empty separator. -/
def pySplit (s sep : String) : List String :=
  (splitSepGo sep.data (s.data.length + 1) [] s.data).map String.mk

/-- Worker for `pySplitOnce`. -/
def splitOnceGo (sep : List Char) : Nat → List Char → List Char → Option (List Char × List Char)
  | 0, _, _ => none
  | n + 1, acc, rest =>
    if sep.isPrefixOf rest then some (acc.reverse, rest.drop sep.length)
    else
      match rest with
      | [] => none
      | c :: t => splitOnceGo sep n (c :: acc) t

/-- Python `s.split(sep, 1)`, returning `none` when the separator is absent. -/
def pySplitOnce (s sep : String) : Option (String × String) :=
  (splitOnceGo sep.data (s.data.length + 1) [] s.data).map
    (fun pr => (String.mk pr.1, String.mk pr.2))

/-- Python `s.split(sep, 1)[0]`. -/
def beforeFirst (s sep : String) : String :=
  match pySplitOnce s sep with
  | some pr => pr.1
  | none => s

/-- Python `s.split(sep, 1)[1]` on lines where the separator is present. -/
def afterFirst (s sep : String) : String :=
  match pySplitOnce s sep with
  | some pr => pr.2
  | none => ""

/-- Python `s.rsplit(sep, 1)`, returning `none` when the separator is absent. -/
def pyRsplitOnce (s sep : String) : Option (String × String) :=
  let parts := pySplit s sep
  if parts.length ≤ 1 then none
  else some (String.intercalate sep parts.dropLast, (parts.getLast?).getD "")

/-- Worker for `pySplitWs`: split at every whitespace character. -/
def splitCharsGo (p : Char → Bool) : List Char → List Char → List (List Char)
  | acc, [] => [acc.reverse]
  | acc, c :: t => if p c then acc.reverse :: splitCharsGo p [] t else splitCharsGo p (c :: acc) t

/-- Python `s.split()` with no argument: split on whitespace runs, no empty pieces. -/
def pySplitWs (s : String) : List String :=
  ((splitCharsGo pyIsSpace [] s.data).filter (fun l => !l.isEmpty)).map String.mk

/-- Digit run to a natural number, as Python `int` on a digit string. -/
def digitsToNat (cs : List Char) : Nat :=
  cs.foldl (fun n c => n * 10 + (c.toNat - 48)) 0

/-! ## Role resolver (children_voice_filter.py, extract_speakers_from_cha) -/

/-- A Python dict from speaker code to role, as an insertion-ordered association list. -/
abbrev RoleMap := List (String × String)

/-- Python dict assignment `m[k] = v`: overwrite in place, or append a new entry. -/
def updAssoc (m : RoleMap) (k v : String) : RoleMap :=
  if m.any (fun p => p.1 == k) then
    m.map (fun p => if p.1 == k then (k, v) else p)
  else m ++ [(k, v)]

/-- Python `m.get(k)` as an option. -/
def lookupRole (m : RoleMap) (k : String) : Option String :=
  (m.find? (fun p => p.1 == k)).map Prod.snd

/-- Python `m.get(k, d)`. -/
def pyDictGet (m : RoleMap) (k d : String) : String :=
  (lookupRole m k).getD d

/-- One `@Participants:` entry: `parts = participant.rsplit(" ", 1)`, and the
entry contributes a role exactly when `len(parts) == 2`. -/
def participantsStep (m : RoleMap) (participant : String) : RoleMap :=
  match pyRsplitOnce (pyStrip participant) " " with
  | some pr => updAssoc m pr.1 pr.2
  | none => m

/-- One line of `ChildrenVoiceFilter.extract_speakers_from_cha`. -/
def speakersStep (m : RoleMap) (line : String) : RoleMap :=
  if pyStartsWith line "@Participants:" then
    (pySplit (pyStrip (afterFirst line ":")) ",").foldl participantsStep m
  else if pyStartsWith line "@ID:" then
    let parts := pySplit line "|"
    if 7 ≤ parts.length then
      if parts.getD 2 "" ≠ "" ∧ parts.getD 6 "" ≠ "" then
        updAssoc m (parts.getD 2 "") (parts.getD 6 "")
      else m
    else m
  else m

/-- `ChildrenVoiceFilter.extract_speakers_from_cha`, over the lines of a file. -/
def extract_speakers_from_cha (lines : List String) : RoleMap :=
  lines.foldl speakersStep []

/-- `ChildrenVoiceFilter.CHILD_ROLES`. -/
def CHILD_ROLES : List String :=
  ["Target_Child", "Child", "Sibling", "Peer", "Playmate"]

/-- `ChildrenVoiceFilter.ADULT_ROLES`. -/
def ADULT_ROLES : List String :=
  ["Investigator", "Teacher", "Mother", "Father", "Adult", "Caregiver", "Parent"]

/-- `ChildrenVoiceFilter.is_child`. -/
def is_child (speaker : String) (speakers_info : RoleMap) : Bool :=
  CHILD_ROLES.contains (pyDictGet speakers_info speaker "Unknown")

/-- `ChildrenVoiceFilter.is_adult`. -/
def is_adult (speaker : String) (speakers_info : RoleMap) : Bool :=
  ADULT_ROLES.contains (pyDictGet speakers_info speaker "Unknown")

/-! ## Segment builder (extract_wor.py, _extract_from_file) -/

namespace ExtractWor

/-- A word with optional millisecond bounds: the tuples held in `words` before
the timestamped-only filter runs. -/
abbrev WordTok := String × Option Nat × Option Nat

/-- The `WorSegment` dataclass of extract_wor.py. -/
structure WorSegment where
  speaker : String
  text : String
  words : List WordTok
  file_name : String
deriving DecidableEq

/-- Test for the bare timestamp form `re.match(r"^\d{5,}_\d{5,}$", token)`. -/
def isTsTok (t : String) : Bool :=
  match pySplit t "_" with
  | [a, b] =>
      decide (5 ≤ a.length) && decide (5 ≤ b.length) &&
      a.data.all Char.isDigit && b.data.all Char.isDigit
  | _ => false

/-- The two integers of a timestamp token, as `re.match(r"(\d+)_(\d+)", token)`. -/
def parseTs (t : String) : Nat × Nat :=
  match pySplit t "_" with
  | a :: b :: _ => (digitsToNat a.data, digitsToNat b.data)
  | _ => (0, 0)

/-- One iteration of the token loop in `_extract_from_file`: a timestamp token
is attached to the last emitted word (overwriting its bounds) or dropped when
no word precedes it; any other token becomes a new word with null bounds. -/
def tokStep (ws : List WordTok) (t : String) : List WordTok :=
  if isTsTok t then
    match ws.getLast? with
    | none => ws
    | some w => ws.dropLast ++ [(w.1, some (parseTs t).1, some (parseTs t).2)]
  else ws ++ [(t, none, none)]

/-- The whole token loop over one dependent-tier content string. -/
def worTokenize (content : String) : List WordTok :=
  (pySplitWs content).foldl tokStep []

/-- `words_with_ts`: keep only words whose two bounds are set. -/
def wordsWithTs (ws : List WordTok) : List WordTok :=
  ws.filter (fun w => w.2.1.isSome && w.2.2.isSome)

/-- The isolated punctuation tokens excluded from a segment text. -/
def PUNCT : List String := ["?", ".", ",", "!", "+..."]

/-- `clean_words`: word strings of a list with punctuation-only tokens removed. -/
def cleanWords (ws : List WordTok) : List String :=
  (ws.map (fun w => w.1)).filter (fun w => !(PUNCT.contains w))

/-- Content of a `%wor:` line: after the first colon, stripped, control
character `0x15` removed. -/
def worContentOf (line : String) : String :=
  removeAllChar '\x15' (pyStrip (afterFirst line ":"))

/-- Speaker code of a main-tier line: before the first colon, asterisks
removed, stripped. -/
def starSpeaker (line : String) : String :=
  pyStrip (removeAllChar '*' (beforeFirst line ":"))

/-- The segment built at an emission point of `_extract_from_file`. -/
def mkSeg (fname s : String) (wts : List WordTok) : WorSegment :=
  ⟨s, String.intercalate " " (cleanWords wts), wts, fname⟩

/-- Line-walking state of `_extract_from_file`: active speaker plus the
segments emitted so far. -/
structure BState where
  speaker : Option String
  segs : List WorSegment
deriving DecidableEq

/-- One line of `_extract_from_file`. -/
def processLine (fname : String) (st : BState) (rawLine : String) : BState :=
  let line := pyRstrip rawLine
  if pyStartsWith line "*" then
    { st with speaker := some (starSpeaker line) }
  else if pyStartsWith line "%wor:" then
    match st.speaker with
    | none => st
    | some s =>
      if s == "" then st
      else
        let wts := wordsWithTs (worTokenize (worContentOf line))
        if wts.isEmpty then st
        else if (cleanWords wts).isEmpty then st
        else { st with segs := st.segs ++ [mkSeg fname s wts] }
  else st

/-- `_extract_from_file` over the lines of one transcript. -/
def extract_from_file (fname : String) (lines : List String) : List WorSegment :=
  (lines.foldl (processLine fname) ⟨none, []⟩).segs

end ExtractWor

/-- `ChildrenVoiceFilter.filter_children_only`: a simple substring test on the
speaker code, ignoring any role metadata. -/
def filter_children_only (segments : List ExtractWor.WorSegment) : List ExtractWor.WorSegment :=
  segments.filter (fun s =>
    strContainsSub s.speaker "Target_Child" || strContainsSub s.speaker "Child")

/-! ## Segment builder (extract_wor_segments.py, extract_wor_segments) -/

namespace Ews

/-- The `WorSegment` dataclass of extract_wor_segments.py (no file name). -/
structure WorSegment where
  speaker : String
  text : String
  words : List (String × Nat × Nat)
deriving DecidableEq

/-- Try the pattern `(\S+)\s+\^U(\d+)_(\d+)\^U` at exactly this position,
returning the capture and the characters after the match.  All quantifiers
are effectively deterministic here: a shorter `\S+` is followed by another
non-space character so `\s+` fails, and each `\d+` is followed by a literal
that no digit can satisfy. -/
def matchWordTs (cs : List Char) : Option ((String × Nat × Nat) × List Char) :=
  let run := cs.takeWhile (fun c => !(pyIsSpace c))
  if run.isEmpty then none
  else
    let rest1 := cs.drop run.length
    let ws := rest1.takeWhile pyIsSpace
    if ws.isEmpty then none
    else
      match rest1.drop ws.length with
      | '^' :: 'U' :: r3 =>
        let d1 := r3.takeWhile Char.isDigit
        if d1.isEmpty then none
        else
          match r3.drop d1.length with
          | '_' :: r4 =>
            let d2 := r4.takeWhile Char.isDigit
            if d2.isEmpty then none
            else
              match r4.drop d2.length with
              | '^' :: 'U' :: r5 => some ((String.mk run, digitsToNat d1, digitsToNat d2), r5)
              | _ => none
          | _ => none
      | _ => none

/-- Non-overlapping left-to-right scan, as `re.findall`: on a match resume
after it, otherwise advance one character.  Fuel bounds the recursion; every
successful match consumes at least four characters, so `cs.length` is ample. -/
def findallGo : Nat → List Char → List (String × Nat × Nat)
  | 0, _ => []
  | _, [] => []
  | Nat.succ f, c :: t =>
    match matchWordTs (c :: t) with
    | some (m, rest) => m :: findallGo f rest
    | none => findallGo f t

/-- `WORD_TS_RE.findall(line)`. -/
def findallWordTs (s : String) : List (String × Nat × Nat) :=
  findallGo s.data.length s.data

/-- Python truthiness of the `current_speaker` variable. -/
def truthyStr (o : Option String) : Bool :=
  match o with
  | none => false
  | some s => !(s == "")

/-- One line of `extract_wor_segments`.  The whole state is wrapped in an
option because a main-tier line without a colon makes the two-target unpack
`current_speaker, content = line.split(":", 1)` raise a ValueError. -/
def ewsStep (acc : Option (Option String × List WorSegment)) (rawLine : String) :
    Option (Option String × List WorSegment) :=
  match acc with
  | none => none
  | some (spk, segs) =>
    let line := pyRstrip rawLine
    if pyStartsWith line "*" then
      match pySplitOnce line ":" with
      | none => none
      | some pr => some (some (pyStrip (removeAllChar '*' pr.1)), segs)
    else if pyStartsWith line "%wor:" && truthyStr spk then
      let words := findallWordTs line
      if words.isEmpty then some (spk, segs)
      else
        some (none,
          segs ++ [⟨spk.getD "", String.intercalate " " (words.map (fun w => w.1)), words⟩])
    else some (spk, segs)

/-- `extract_wor_segments` over the lines of one transcript; note that the
speaker is reset to `None` after every emission. -/
def extract_wor_segments (lines : List String) : Option (List WorSegment) :=
  (lines.foldl ewsStep (some (none, []))).map Prod.snd

end Ews

/-! ## Transcript classifier (classify_cha.py, classify_cha_file) -/

namespace Classify

/-- One recorded child utterance of pass 2. -/
structure Utt where
  speaker : String
  hasTimestamp : Bool
  hasXxx : Bool
deriving DecidableEq

/-- The summary dict returned by `classify_cha_file`. -/
structure ChaInfo where
  file : String
  type : String
  child_utterances : Nat
  with_timestamps : Nat
  without_timestamps : Nat
  has_xxx : Bool
  child_speakers : List String
deriving DecidableEq

/-- Match `TIMESTAMP_RE = \^U\d+_\d+\^U` at exactly this position. -/
def matchTsAt : List Char → Bool
  | '^' :: 'U' :: r =>
    let d1 := r.takeWhile Char.isDigit
    !d1.isEmpty &&
      (match r.drop d1.length with
       | '_' :: r2 =>
         let d2 := r2.takeWhile Char.isDigit
         !d2.isEmpty &&
           (match r2.drop d2.length with
            | '^' :: 'U' :: _ => true
            | _ => false)
       | _ => false)
  | _ => false

/-- `TIMESTAMP_RE.search(content)` as a boolean. -/
def hasTsAnywhere : List Char → Bool
  | [] => false
  | c :: t => matchTsAt (c :: t) || hasTsAnywhere t

/-- The pass-1 `@ID:` condition: at least three pipe fields of the stripped
line, one of which is exactly `Target_Child`. -/
def idLineCond (l : String) : Bool :=
  pyStartsWith l "@ID:" &&
    (decide (3 ≤ (pySplit (pyStrip l) "|").length) &&
     (pySplit (pyStrip l) "|").contains "Target_Child")

/-- The speaker code field `parts[2]` of an `@ID:` line. -/
def idLineCode (l : String) : String :=
  (pySplit (pyStrip l) "|").getD 2 ""

/-- Python set insertion. -/
def setAdd (l : List String) (x : String) : List String :=
  if l.contains x then l else l ++ [x]

/-- Pass 1: the set `child_speaker_ids`. -/
def chaChildIds (lines : List String) : List String :=
  lines.foldl (fun acc l => if idLineCond l then setAdd acc (idLineCode l) else acc) []

/-- Pass 1: the flag `has_target_child`. -/
def chaHasTargetChild (lines : List String) : Bool :=
  lines.any (fun l =>
    (pyStartsWith l "@Participants:" && strContainsSub l "Target_Child") || idLineCond l)

/-- The pass-2 child test: `speaker == "CHI" or speaker in child_speaker_ids`. -/
def chaChildCodes (lines : List String) (spk : String) : Bool :=
  spk == "CHI" || (chaChildIds lines).contains spk

/-- Pass 2: the list `utterances`. -/
def childUtts (lines : List String) : List Utt :=
  lines.filterMap (fun line =>
    if !(pyStartsWith line "*") then none
    else if !(strContainsSub line ":") then none
    else
      let speaker := pyStrip (String.mk ((beforeFirst line ":").data.drop 1))
      let content := afterFirst line ":"
      if chaChildCodes lines speaker then
        some ⟨speaker, hasTsAnywhere content.data, strContainsSub (pyLower content) "xxx"⟩
      else none)

/-- Lexicographic comparison on code points, as Python string ordering. -/
def charListLe : List Char → List Char → Bool
  | [], _ => true
  | _ :: _, [] => false
  | a :: as, b :: bs =>
    if a.toNat < b.toNat then true
    else if b.toNat < a.toNat then false
    else charListLe as bs

/-- Insertion into a sorted list of strings. -/
def insertSorted (x : String) : List String → List String
  | [] => [x]
  | y :: t => if charListLe x.data y.data then x :: y :: t else y :: insertSorted x t

/-- Python `sorted` on strings. -/
def sortedStr (l : List String) : List String :=
  l.foldr insertSorted []

/-- The final if-chain of `classify_cha_file`; note the last two branches both
produce `B`. -/
def fileTypeOf (hasTC : Bool) (total withTs : Nat) : String :=
  if hasTC = false then "EMPTY"
  else if total = 0 then "EMPTY"
  else if withTs = total then "A"
  else if 0 < withTs then "B"
  else "B"

/-- `classify_cha_file`. -/
def classify_cha_file (fname : String) (lines : List String) : ChaInfo :=
  let hasTC := chaHasTargetChild lines
  let utts := childUtts lines
  let total := utts.length
  let withTs := (utts.filter (fun u => u.hasTimestamp)).length
  let ft := fileTypeOf hasTC total withTs
  { file := fname
    type := ft
    child_utterances := total
    with_timestamps := withTs
    without_timestamps := total - withTs
    has_xxx := utts.any (fun u => u.hasXxx)
    child_speakers := sortedStr (chaChildIds lines) }

end Classify

/-! ## Helper lemmas -/

theorem startsWith_wor_not_star (l : String) (h : pyStartsWith l "%wor:" = true) :
    pyStartsWith l "*" = false := by
  unfold pyStartsWith at h ⊢
  have hw : ("%wor:").data = ['%', 'w', 'o', 'r', ':'] := rfl
  have hs : ("*").data = ['*'] := rfl
  rw [hw] at h
  rw [hs]
  cases hd : l.data with
  | nil => rw [hd] at h; simp [List.isPrefixOf] at h
  | cons c t =>
    rw [hd] at h
    simp only [List.isPrefixOf, Bool.and_eq_true, beq_iff_eq] at h
    obtain ⟨hc, -⟩ := h
    subst hc
    simp [List.isPrefixOf]

theorem startsWith_id_not_participants (l : String) (h : pyStartsWith l "@ID:" = true) :
    pyStartsWith l "@Participants:" = false := by
  unfold pyStartsWith at h ⊢
  have hw : ("@ID:").data = ['@', 'I', 'D', ':'] := rfl
  have hs : ("@Participants:").data =
      ['@', 'P', 'a', 'r', 't', 'i', 'c', 'i', 'p', 'a', 'n', 't', 's', ':'] := rfl
  rw [hw] at h
  rw [hs]
  cases hd : l.data with
  | nil => rw [hd] at h; simp [List.isPrefixOf] at h
  | cons c t =>
    rw [hd] at h
    cases ht : t with
    | nil => rw [ht] at h; simp [List.isPrefixOf] at h
    | cons c2 t2 =>
      rw [ht] at h
      simp only [List.isPrefixOf, Bool.and_eq_true, beq_iff_eq] at h
      obtain ⟨hc, hc2, -⟩ := h
      subst hc
      subst hc2
      simp [List.isPrefixOf]

/-- Local version of the standard `find?` over an append decomposition. -/
theorem find?_append_or {α : Type} (p : α → Bool) (l₁ l₂ : List α) :
    (l₁ ++ l₂).find? p =
      match l₁.find? p with
      | some x => some x
      | none => l₂.find? p := by
  induction l₁ with
  | nil => rfl
  | cons a t ih =>
    by_cases hp : p a
    · simp [List.find?, hp]
    · simp only [List.cons_append, List.find?, Bool.not_eq_true] at *
      rw [hp]
      exact ih

/-! ## Concrete transcripts used by counterexamples and witnesses -/

/-- The round-trip transcript of claim C1. -/
def testC1 : List String :=
  ["@Participants: KAT Investigator, WIL Target_Child\n",
   "*WIL:\thello world\n",
   "%wor:\thello ^U100_200^U world ^U200_400^U\n"]

/-! ## Claims -/

/-- C1, counterexample.  On the claimed transcript the classifier returns
`EMPTY`, not `A` (the speaker `WIL` is neither `CHI` nor declared by an
`@ID:` line, so no child utterance is counted), and the builder of
extract_wor.py emits no segment at all (its timestamp pattern only accepts
bare tokens with at least five digits on each side). -/
theorem c1_counterexample :
    (Classify.classify_cha_file "t" testC1).type = "EMPTY" ∧
    (Classify.classify_cha_file "t" testC1).type ≠ "A" ∧
    ExtractWor.extract_from_file "t" testC1 = [] := by
  decide

/-- C1, amended.  The role resolver returns exactly the claimed map; the
regex builder of extract_wor_segments.py emits exactly the claimed single
segment; the line-walking builder of extract_wor.py emits nothing; the
classifier assigns `EMPTY`. -/
theorem c1_round_trip_amended :
    extract_speakers_from_cha testC1 = [("KAT", "Investigator"), ("WIL", "Target_Child")] ∧
    Ews.extract_wor_segments testC1 =
      some [⟨"WIL", "hello world", [("hello", 100, 200), ("world", 200, 400)]⟩] ∧
    ExtractWor.extract_from_file "t" testC1 = [] ∧
    (Classify.classify_cha_file "t" testC1).type = "EMPTY" := by
  decide

/-- C2, counterexample.  A transcript with `Target_Child` metadata and one
child utterance carrying no timestamp is classified `B`, not `C`: the final
branch of the classifier maps the all-untimestamped case to `B` as well. -/
theorem c2_counterexample :
    (Classify.classify_cha_file "t"
        ["@Participants: WIL Target_Child\n", "*CHI:\thi\n"]).child_utterances = 1 ∧
    (Classify.classify_cha_file "t"
        ["@Participants: WIL Target_Child\n", "*CHI:\thi\n"]).with_timestamps = 0 ∧
    (Classify.classify_cha_file "t"
        ["@Participants: WIL Target_Child\n", "*CHI:\thi\n"]).type = "B" ∧
    (Classify.classify_cha_file "t"
        ["@Participants: WIL Target_Child\n", "*CHI:\thi\n"]).type ≠ "C" := by
  decide

/-- C3, counterexample.  An `@ID:` line with ten pipe fields whose role sits
at candidate index 5 while index 6 is empty contributes nothing: the resolver
reads index 6 only. -/
theorem c3_counterexample :
    (pySplit "@ID: a|b|KAT|||Investigator||||\n" "|").getD 5 "" = "Investigator" ∧
    (pySplit "@ID: a|b|KAT|||Investigator||||\n" "|").getD 6 "" = "" ∧
    extract_speakers_from_cha ["@ID: a|b|KAT|||Investigator||||\n"] = [] := by
  decide

/-- C4, counterexample.  A segment whose speaker code is literally `Child` is
kept by `filter_children_only` even under a role map that resolves that code
to the adult role `Investigator`, so a returned segment can classify as
non-child under the role map. -/
theorem c4_counterexample :
    filter_children_only [⟨"Child", "hi", [("hi", some 1, some 2)], "f"⟩] =
      [⟨"Child", "hi", [("hi", some 1, some 2)], "f"⟩] ∧
    is_child "Child" [("Child", "Investigator")] = false := by
  decide

/-- C5, counterexample.  After `a 11111_22222 33333_44444` the single word
carries the bounds of the second timestamp: the second consecutive timestamp
token is not discarded but overwrites the bounds assigned by the first. -/
theorem c5_counterexample :
    ExtractWor.worTokenize "a 11111_22222 33333_44444" =
      [("a", some 33333, some 44444)] ∧
    ExtractWor.worTokenize "a 11111_22222 33333_44444" ≠
      [("a", some 11111, some 22222)] := by
  decide

/-- C6, counterexample.  A speaker declared `Sibling` by an `@ID:` line is a
child under the role map (`Sibling` is in the child vocabulary), yet the
classifier does not count it: its id set only collects `@ID:` lines carrying
a field exactly equal to `Target_Child`, so the utterance of `SIB` is
dropped and the count stays zero. -/
theorem c6_counterexample :
    is_child "SIB"
      (extract_speakers_from_cha ["@ID: fra|x|SIB||||Sibling|||\n", "*SIB:\thi\n"]) = true ∧
    Classify.chaChildIds ["@ID: fra|x|SIB||||Sibling|||\n", "*SIB:\thi\n"] = [] ∧
    Classify.chaChildCodes ["@ID: fra|x|SIB||||Sibling|||\n", "*SIB:\thi\n"] "SIB" = false ∧
    (Classify.classify_cha_file "t"
        ["@ID: fra|x|SIB||||Sibling|||\n", "*SIB:\thi\n"]).child_utterances = 0 := by
  decide

/-- C7, counterexample.  A `%wor:` line processed with an active speaker whose
timestamped word list is the single punctuation token `?` emits no segment:
emission additionally requires a non-empty clean (non-punctuation) word
list. -/
theorem c7_counterexample :
    ExtractWor.wordsWithTs (ExtractWor.worTokenize "? 11111_22222") =
      [("?", some 11111, some 22222)] ∧
    ExtractWor.extract_from_file "t" ["*WIL:\thi\n", "%wor:\t? 11111_22222\n"] = [] := by
  decide

/-- C8, counterexample.  The builder of extract_wor_segments.py joins all
captured word strings, without excluding punctuation-only tokens: here the
segment text is `?` although the punctuation-excluding join of its words is
empty. -/
theorem c8_counterexample :
    Ews.extract_wor_segments ["*WIL:\thi\n", "%wor:\t? ^U100_200^U\n"] =
      some [⟨"WIL", "?", [("?", 100, 200)]⟩] ∧
    (([("?", (100 : Nat), (200 : Nat))].map (fun w => w.1)).filter
        (fun w => !(ExtractWor.PUNCT.contains w))) = [] ∧
    "?" ≠ String.intercalate " "
      (([("?", (100 : Nat), (200 : Nat))].map (fun w => w.1)).filter
        (fun w => !(ExtractWor.PUNCT.contains w))) := by
  decide

/-- C9, counterexample.  In extract_wor_segments.py the speaker is reset to
`None` after an emission, so of two consecutive qualifying `%wor:` lines
under one main-tier turn only the first yields a segment, although the
second also matches a non-empty word list. -/
theorem c9_counterexample :
    Ews.extract_wor_segments ["*WIL:\ta\n", "%wor:\ta ^U100_200^U\n", "%wor:\tb ^U300_400^U\n"] =
      some [⟨"WIL", "a", [("a", 100, 200)]⟩] ∧
    Ews.findallWordTs "%wor:\tb ^U300_400^U" = [("b", 300, 400)] := by
  decide

theorem classify_type_eq (fname : String) (lines : List String) :
    (Classify.classify_cha_file fname lines).type =
      Classify.fileTypeOf (Classify.chaHasTargetChild lines)
        (Classify.childUtts lines).length
        (((Classify.childUtts lines).filter (fun u => u.hasTimestamp)).length) := rfl

theorem classify_total_eq (fname : String) (lines : List String) :
    (Classify.classify_cha_file fname lines).child_utterances =
      (Classify.childUtts lines).length := rfl

theorem classify_withTs_eq (fname : String) (lines : List String) :
    (Classify.classify_cha_file fname lines).with_timestamps =
      ((Classify.childUtts lines).filter (fun u => u.hasTimestamp)).length := rfl

theorem fileTypeOf_cases (total withTs : Nat) (h1 : 1 ≤ total) :
    (withTs = total → Classify.fileTypeOf true total withTs = "A") ∧
    (withTs < total → Classify.fileTypeOf true total withTs = "B") := by
  unfold Classify.fileTypeOf
  constructor
  · intro hEq
    split_ifs <;> first | rfl | omega | simp_all
  · intro hLt
    split_ifs <;> first | rfl | omega | simp_all

/-- C2, amended.  For every transcript whose metadata marks a `Target_Child`
and which has at least one child-attributed utterance: when all utterances
carry a timestamp the class is `A`, and otherwise — whether a strict mix or
no timestamp at all — the class is `B`.  The class `C` is never assigned;
the all-untimestamped case falls into `B`. -/
theorem c2_classification_amended (fname : String) (lines : List String)
    (h1 : Classify.chaHasTargetChild lines = true)
    (h2 : 1 ≤ (Classify.classify_cha_file fname lines).child_utterances) :
    ((Classify.classify_cha_file fname lines).with_timestamps =
        (Classify.classify_cha_file fname lines).child_utterances →
      (Classify.classify_cha_file fname lines).type = "A") ∧
    ((Classify.classify_cha_file fname lines).with_timestamps <
        (Classify.classify_cha_file fname lines).child_utterances →
      (Classify.classify_cha_file fname lines).type = "B") := by
  rw [classify_total_eq] at h2
  rw [classify_type_eq, classify_total_eq, classify_withTs_eq, h1]
  exact fileTypeOf_cases _ _ h2

/-- C2, witness: a transcript with one timestamped and one untimestamped
child utterance is classified `B` by the amended theorem. -/
theorem c2_witness :
    (Classify.classify_cha_file "t"
      ["@Participants: WIL Target_Child\n", "*CHI:\thi\n", "*CHI:\tyo ^U100_200^U\n"]).type
      = "B" :=
  (c2_classification_amended "t"
      ["@Participants: WIL Target_Child\n", "*CHI:\thi\n", "*CHI:\tyo ^U100_200^U\n"]
      (by decide) (by decide)).2 (by decide)

/-- C4, amended.  `filter_children_only` returns a sublist of its input, and
membership is exactly the substring test on the speaker code (`Target_Child`
or `Child` occurs in it); no role map is consulted at all. -/
theorem c4_filter_amended (segments : List ExtractWor.WorSegment) :
    (filter_children_only segments).Sublist segments ∧
    ∀ s, s ∈ filter_children_only segments ↔
      s ∈ segments ∧
        (strContainsSub s.speaker "Target_Child" || strContainsSub s.speaker "Child") = true := by
  constructor
  · exact List.filter_sublist segments
  · intro s
    simp [filter_children_only, List.mem_filter]

/-- C5, amended.  A bare timestamp token with no preceding word is discarded,
and otherwise a timestamp token always attaches to the most recently emitted
word, overwriting whatever bounds that word already carried (so a second
consecutive timestamp replaces the bounds set by the first). -/
theorem c5_timestamp_attach_amended :
    (∀ t, ExtractWor.isTsTok t = true → ExtractWor.tokStep [] t = []) ∧
    (∀ (ws : List ExtractWor.WordTok) (w : ExtractWor.WordTok) (t : String),
      ExtractWor.isTsTok t = true →
      ExtractWor.tokStep (ws ++ [w]) t =
        ws ++ [(w.1, some (ExtractWor.parseTs t).1, some (ExtractWor.parseTs t).2)]) := by
  constructor
  · intro t ht
    simp [ExtractWor.tokStep, ht]
  · intro ws w t ht
    simp [ExtractWor.tokStep, ht, List.getLast?_concat, List.dropLast_concat]

/-- C5, witness: attaching `33333_44444` after a word already bound by
`11111_22222` overwrites the bounds, via the amended theorem. -/
theorem c5_witness :
    ExtractWor.tokStep [("a", some 11111, some 22222)] "33333_44444" =
      [("a", some 33333, some 44444)] := by
  have h := c5_timestamp_attach_amended.2 [] ("a", some 11111, some 22222) "33333_44444"
    (by decide)
  exact h.trans (by decide)

/-- Behaviour of one builder step of extract_wor.py on a dependent-tier line
when a non-empty speaker is active: the speaker is kept, and a segment is
appended exactly when the clean word list is non-empty. -/
theorem processLine_wor (fname : String) (st : ExtractWor.BState) (l s : String)
    (hw : pyStartsWith (pyRstrip l) "%wor:" = true)
    (hs : st.speaker = some s) (hne : (s == "") = false) :
    ExtractWor.processLine fname st l =
      if (ExtractWor.cleanWords (ExtractWor.wordsWithTs
            (ExtractWor.worTokenize (ExtractWor.worContentOf (pyRstrip l))))).isEmpty
      then st
      else { st with segs := st.segs ++ [ExtractWor.mkSeg fname s
        (ExtractWor.wordsWithTs (ExtractWor.worTokenize
          (ExtractWor.worContentOf (pyRstrip l))))] } := by
  obtain ⟨spk, segs⟩ := st
  replace hs : spk = some s := hs
  subst hs
  unfold ExtractWor.processLine
  simp only [startsWith_wor_not_star _ hw, hw, hne, Bool.false_eq_true, if_false, if_true]
  by_cases h0 : (ExtractWor.wordsWithTs (ExtractWor.worTokenize
      (ExtractWor.worContentOf (pyRstrip l)))).isEmpty
  · rw [List.isEmpty_iff] at h0
    simp [h0, ExtractWor.cleanWords]
  · simp only [Bool.not_eq_true] at h0
    simp [h0]

/-- Behaviour of one builder step of extract_wor.py on a dependent-tier line
when no speaker (or the empty speaker) is active: nothing happens. -/
theorem processLine_wor_skip (fname : String) (st : ExtractWor.BState) (l : String)
    (hw : pyStartsWith (pyRstrip l) "%wor:" = true)
    (hs : st.speaker = none ∨ st.speaker = some "") :
    ExtractWor.processLine fname st l = st := by
  obtain ⟨spk, segs⟩ := st
  rcases hs with h | h
  · replace h : spk = none := h
    subst h
    unfold ExtractWor.processLine
    simp only [startsWith_wor_not_star _ hw, hw, Bool.false_eq_true, if_false, if_true]
  · replace h : spk = some "" := h
    subst h
    unfold ExtractWor.processLine
    simp only [startsWith_wor_not_star _ hw, hw, Bool.false_eq_true, if_false, if_true]
    rfl

/-- C7, amended.  A `%wor:` line with no active (or an empty) speaker is
silently skipped; with a non-empty active speaker the line keeps the speaker
unchanged and a segment is emitted exactly when the clean — non-punctuation —
timestamped word list is non-empty (so a non-empty timestamped list whose
words are all punctuation still produces no segment and no error). -/
theorem c7_wor_emission_amended (fname : String) (st : ExtractWor.BState) (l s : String)
    (hw : pyStartsWith (pyRstrip l) "%wor:" = true) :
    ((st.speaker = none ∨ st.speaker = some "") → ExtractWor.processLine fname st l = st) ∧
    (st.speaker = some s → s ≠ "" →
      (ExtractWor.processLine fname st l).speaker = st.speaker ∧
      ((ExtractWor.processLine fname st l).segs.length = st.segs.length + 1 ↔
        ExtractWor.cleanWords (ExtractWor.wordsWithTs
          (ExtractWor.worTokenize (ExtractWor.worContentOf (pyRstrip l)))) ≠ []) ∧
      (ExtractWor.processLine fname st l = st ↔
        ExtractWor.cleanWords (ExtractWor.wordsWithTs
          (ExtractWor.worTokenize (ExtractWor.worContentOf (pyRstrip l)))) = [])) := by
  constructor
  · intro hs
    exact processLine_wor_skip fname st l hw hs
  · intro hs hne
    have hne' : (s == "") = false := by simp [hne]
    rw [processLine_wor fname st l s hw hs hne']
    by_cases hc : (ExtractWor.cleanWords (ExtractWor.wordsWithTs
        (ExtractWor.worTokenize (ExtractWor.worContentOf (pyRstrip l))))).isEmpty
    · rw [List.isEmpty_iff] at hc
      simp [hc]
    · simp only [Bool.not_eq_true] at hc
      have hcne : ExtractWor.cleanWords (ExtractWor.wordsWithTs
          (ExtractWor.worTokenize (ExtractWor.worContentOf (pyRstrip l)))) ≠ [] := by
        intro h0
        rw [h0] at hc
        simp at hc
      simp only [hc, Bool.false_eq_true, if_false]
      refine ⟨trivial, ?_, ?_⟩
      · simp [hcne]
      · constructor
        · intro hEq
          exfalso
          have := congrArg (fun st0 => st0.segs.length) hEq
          simp at this
        · intro h0
          exact absurd h0 hcne

/-- C7, witness: a `%wor:` line whose only timestamped word is `?` leaves the
state unchanged, via the amended theorem. -/
theorem c7_witness :
    ExtractWor.processLine "t" ⟨some "WIL", []⟩ "%wor:\t? 11111_22222\n" =
      ⟨some "WIL", []⟩ :=
  ((c7_wor_emission_amended "t" ⟨some "WIL", []⟩ "%wor:\t? 11111_22222\n" "WIL"
      (by decide)).2 rfl (by decide)).2.2.mpr (by decide)

/-- C9, amended.  The builder of extract_wor.py never resets the active
speaker: folding any run of `%wor:` lines that each yield a non-empty clean
word list keeps the speaker, and appends one segment per line, every one
attributed to that same speaker.  (The duplicated builder in
extract_wor_segments.py instead resets the speaker after an emission — see
the counterexample.) -/
theorem c9_no_reset_amended (fname s : String) (hs : s ≠ "")
    (worLines : List String)
    (hall : ∀ l ∈ worLines, pyStartsWith (pyRstrip l) "%wor:" = true ∧
      ExtractWor.cleanWords (ExtractWor.wordsWithTs
        (ExtractWor.worTokenize (ExtractWor.worContentOf (pyRstrip l)))) ≠ []) :
    ∀ st : ExtractWor.BState, st.speaker = some s →
      (worLines.foldl (ExtractWor.processLine fname) st).speaker = some s ∧
      (worLines.foldl (ExtractWor.processLine fname) st).segs =
        st.segs ++ worLines.map (fun l => ExtractWor.mkSeg fname s
          (ExtractWor.wordsWithTs (ExtractWor.worTokenize
            (ExtractWor.worContentOf (pyRstrip l))))) := by
  induction worLines with
  | nil =>
    intro st hsp
    simpa using hsp
  | cons l t ih =>
    intro st hsp
    obtain ⟨hw, hcne⟩ := hall l (by simp)
    have hne' : (s == "") = false := by simp [hs]
    have hstep := processLine_wor fname st l s hw hsp hne'
    have hcE : (ExtractWor.cleanWords (ExtractWor.wordsWithTs
        (ExtractWor.worTokenize (ExtractWor.worContentOf (pyRstrip l))))).isEmpty = false := by
      rw [List.isEmpty_eq_false_iff_exists_mem]
      rcases List.exists_mem_of_ne_nil _ hcne with ⟨x, hx⟩
      exact ⟨x, hx⟩
    rw [hcE] at hstep
    simp only [Bool.false_eq_true, if_false] at hstep
    have hall' : ∀ l2 ∈ t, pyStartsWith (pyRstrip l2) "%wor:" = true ∧
        ExtractWor.cleanWords (ExtractWor.wordsWithTs
          (ExtractWor.worTokenize (ExtractWor.worContentOf (pyRstrip l2)))) ≠ [] := by
      intro l2 hl2
      exact hall l2 (by simp [hl2])
    have hrec := ih hall' (ExtractWor.processLine fname st l) (by rw [hstep]; exact hsp)
    rw [List.foldl_cons] at *
    refine ⟨hrec.1, ?_⟩
    rw [hrec.2, hstep]
    simp [List.append_assoc]

/-- C9, witness: two consecutive bare-timestamp `%wor:` lines after one
main-tier turn yield two segments, both attributed to `WIL`. -/
theorem c9_witness :
    ((["%wor:\ta 11111_22222\n", "%wor:\tb 33333_44444\n"].foldl
        (ExtractWor.processLine "t") ⟨some "WIL", []⟩).segs).map
      (fun seg => seg.speaker) = ["WIL", "WIL"] := by
  have h := c9_no_reset_amended "t" "WIL" (by decide)
      ["%wor:\ta 11111_22222\n", "%wor:\tb 33333_44444\n"] (by decide)
      ⟨some "WIL", []⟩ rfl
  rw [h.2]
  decide

/-- The Segment invariant of extract_wor.py: non-empty words, both bounds set
on every word, text the space-join of the non-punctuation word strings. -/
def segInvariant (seg : ExtractWor.WorSegment) : Prop :=
  seg.words ≠ [] ∧
  (∀ w ∈ seg.words, w.2.1.isSome = true ∧ w.2.2.isSome = true) ∧
  seg.text = String.intercalate " " (ExtractWor.cleanWords seg.words)

/-- The weaker Segment invariant of extract_wor_segments.py: non-empty words,
text the space-join of all word strings with no punctuation exclusion. -/
def ewsInvariant (seg : Ews.WorSegment) : Prop :=
  seg.words ≠ [] ∧ seg.text = String.intercalate " " (seg.words.map (fun w => w.1))

theorem mkSeg_invariant (fname s : String) (ws0 : List ExtractWor.WordTok)
    (hne : ExtractWor.cleanWords (ExtractWor.wordsWithTs ws0) ≠ []) :
    segInvariant (ExtractWor.mkSeg fname s (ExtractWor.wordsWithTs ws0)) := by
  refine ⟨?_, ?_, rfl⟩
  · intro h0
    apply hne
    show ExtractWor.cleanWords (ExtractWor.wordsWithTs ws0) = []
    rw [show ExtractWor.wordsWithTs ws0 = [] from h0]
    rfl
  · intro w hw
    have := (List.mem_filter.mp hw).2
    rw [Bool.and_eq_true] at this
    exact this

/-- The segment list of a builder step either stays put or grows by one
segment built from the timestamped words of the current line, the latter
only when the clean word list is non-empty. -/
theorem processLine_segs_cases (fname : String) (st : ExtractWor.BState) (l : String) :
    (ExtractWor.processLine fname st l).segs = st.segs ∨
    ∃ s, (ExtractWor.processLine fname st l).segs =
        st.segs ++ [ExtractWor.mkSeg fname s (ExtractWor.wordsWithTs
          (ExtractWor.worTokenize (ExtractWor.worContentOf (pyRstrip l))))] ∧
      ExtractWor.cleanWords (ExtractWor.wordsWithTs
        (ExtractWor.worTokenize (ExtractWor.worContentOf (pyRstrip l)))) ≠ [] := by
  by_cases h1 : pyStartsWith (pyRstrip l) "*" = true
  · left
    unfold ExtractWor.processLine
    simp [h1]
  · by_cases h2 : pyStartsWith (pyRstrip l) "%wor:" = true
    · rcases hsp : st.speaker with _ | s
      · left
        rw [processLine_wor_skip fname st l h2 (Or.inl hsp)]
      · by_cases hse : s = ""
        · left
          subst hse
          rw [processLine_wor_skip fname st l h2 (Or.inr hsp)]
        · have hne' : (s == "") = false := by simp [hse]
          rw [processLine_wor fname st l s h2 hsp hne']
          by_cases hc : (ExtractWor.cleanWords (ExtractWor.wordsWithTs
              (ExtractWor.worTokenize (ExtractWor.worContentOf (pyRstrip l))))).isEmpty = true
          · left
            simp [hc]
          · right
            refine ⟨s, ?_, ?_⟩
            · simp [hc]
            · intro h0
              rw [h0] at hc
              simp at hc
    · left
      unfold ExtractWor.processLine
      simp only [Bool.not_eq_true] at h1 h2
      simp [h1, h2]

theorem extract_from_file_all_inv (fname : String) (lines : List String) :
    ∀ st : ExtractWor.BState, (∀ seg ∈ st.segs, segInvariant seg) →
      ∀ seg ∈ (lines.foldl (ExtractWor.processLine fname) st).segs, segInvariant seg := by
  induction lines with
  | nil =>
    intro st h
    simpa using h
  | cons l t ih =>
    intro st h
    rw [List.foldl_cons]
    apply ih
    intro seg hseg
    rcases processLine_segs_cases fname st l with hc | ⟨s, hc, hne⟩
    · rw [hc] at hseg
      exact h seg hseg
    · rw [hc] at hseg
      rcases List.mem_append.mp hseg with hm | hm
      · exact h seg hm
      · rw [List.mem_singleton] at hm
        subst hm
        exact mkSeg_invariant fname s _ hne

theorem ewsStep_pres (l : String) (spk : Option String) (segs : List Ews.WorSegment)
    (h : ∀ seg ∈ segs, ewsInvariant seg) :
    ∀ spk2 segs2, Ews.ewsStep (some (spk, segs)) l = some (spk2, segs2) →
      ∀ seg ∈ segs2, ewsInvariant seg := by
  intro spk2 segs2 hstep seg hseg
  unfold Ews.ewsStep at hstep
  by_cases h1 : pyStartsWith (pyRstrip l) "*" = true
  · simp only [h1, if_true] at hstep
    cases hsp : pySplitOnce (pyRstrip l) ":" with
    | none =>
      rw [hsp] at hstep
      simp at hstep
    | some pr =>
      rw [hsp] at hstep
      simp only [Option.some.injEq, Prod.mk.injEq] at hstep
      rw [← hstep.2] at hseg
      exact h seg hseg
  · by_cases h2 : (pyStartsWith (pyRstrip l) "%wor:" && Ews.truthyStr spk) = true
    · simp only [h1, h2, if_true, Bool.false_eq_true, if_false] at hstep
      by_cases h3 : (Ews.findallWordTs (pyRstrip l)).isEmpty = true
      · simp only [h3, if_true] at hstep
        simp only [Option.some.injEq, Prod.mk.injEq] at hstep
        rw [← hstep.2] at hseg
        exact h seg hseg
      · simp only [h3, Bool.false_eq_true, if_false] at hstep
        simp only [Option.some.injEq, Prod.mk.injEq] at hstep
        rw [← hstep.2] at hseg
        rcases List.mem_append.mp hseg with hm | hm
        · exact h seg hm
        · rw [List.mem_singleton] at hm
          subst hm
          refine ⟨?_, rfl⟩
          intro h0
          have h0b : Ews.findallWordTs (pyRstrip l) = [] := h0
          rw [h0b] at h3
          simp at h3
    · simp only [h1, h2, Bool.false_eq_true, if_false] at hstep
      simp only [Option.some.injEq, Prod.mk.injEq] at hstep
      rw [← hstep.2] at hseg
      exact h seg hseg

theorem ews_fold_inv (lines : List String) :
    ∀ acc : Option (Option String × List Ews.WorSegment),
      (∀ spk segs, acc = some (spk, segs) → ∀ seg ∈ segs, ewsInvariant seg) →
      ∀ spk2 segs2, lines.foldl Ews.ewsStep acc = some (spk2, segs2) →
        ∀ seg ∈ segs2, ewsInvariant seg := by
  induction lines with
  | nil =>
    intro acc h spk2 segs2 hfold
    exact h spk2 segs2 hfold
  | cons l t ih =>
    intro acc h spk2 segs2 hfold
    rw [List.foldl_cons] at hfold
    refine ih (Ews.ewsStep acc l) ?_ spk2 segs2 hfold
    intro spk3 segs3 hstep
    cases acc with
    | none => simp [Ews.ewsStep] at hstep
    | some pr =>
      exact ewsStep_pres l pr.1 pr.2 (h pr.1 pr.2 (by rw [Prod.mk.eta])) spk3 segs3
        (by rw [← Prod.mk.eta (p := pr)] at hstep; exact hstep)

/-- C8, amended.  Every segment of the extract_wor.py builder satisfies the
full invariant: non-empty words, both bounds present on every word, and text
equal to the space-join of the word strings after punctuation-only tokens
are excluded.  Segments of the extract_wor_segments.py builder satisfy
non-emptiness (their bounds are plain integers by construction), but their
text joins all word strings without the punctuation exclusion. -/
theorem c8_segment_invariant_amended :
    (∀ (fname : String) (lines : List String) seg,
        seg ∈ ExtractWor.extract_from_file fname lines → segInvariant seg) ∧
    (∀ (lines : List String) segs seg,
        Ews.extract_wor_segments lines = some segs → seg ∈ segs → ewsInvariant seg) := by
  constructor
  · intro fname lines seg hseg
    exact extract_from_file_all_inv fname lines ⟨none, []⟩ (by simp) seg hseg
  · intro lines segs seg hres hseg
    unfold Ews.extract_wor_segments at hres
    cases hfold : lines.foldl Ews.ewsStep (some (none, [])) with
    | none =>
      rw [hfold] at hres
      simp at hres
    | some pr =>
      rw [hfold] at hres
      simp only [Option.map_some', Option.some.injEq] at hres
      refine ews_fold_inv lines (some (none, [])) ?_ pr.1 pr.2
        (by rw [hfold, Prod.mk.eta]) seg ?_
      · intro spk segs0 hacc
        simp only [Option.some.injEq, Prod.mk.injEq] at hacc
        rw [← hacc.2]
        intro s0 hs0
        simp at hs0
      · rw [hres]
        exact hseg

/-- C8, witness: the amended theorem applied to one concrete transcript per
builder. -/
theorem c8_witness :
    segInvariant ⟨"WIL", "hi", [("hi", some 11111, some 22222)], "t"⟩ ∧
    ewsInvariant ⟨"WIL", "?", [("?", 100, 200)]⟩ :=
  ⟨c8_segment_invariant_amended.1 "t" ["*WIL:\thi\n", "%wor:\thi 11111_22222\n"] _ (by decide),
   c8_segment_invariant_amended.2 ["*WIL:\thi\n", "%wor:\t? ^U100_200^U\n"]
     [⟨"WIL", "?", [("?", 100, 200)]⟩] _ (by decide) (by decide)⟩

theorem contains_iff_mem_str (l : List String) (x : String) :
    l.contains x = true ↔ x ∈ l :=
  ⟨List.mem_of_elem_eq_true, List.elem_eq_true_of_mem⟩

theorem mem_setAdd (l : List String) (x c : String) :
    c ∈ Classify.setAdd l x ↔ c ∈ l ∨ c = x := by
  unfold Classify.setAdd
  by_cases h : l.contains x
  · rw [if_pos h]
    constructor
    · intro hm
      exact Or.inl hm
    · intro hm
      rcases hm with hm | hm
      · exact hm
      · rw [hm]
        exact (contains_iff_mem_str l x).mp h
  · rw [if_neg h]
    simp [List.mem_append]

theorem mem_chaChildIds_aux (lines : List String) :
    ∀ acc : List String, ∀ c : String,
      (c ∈ lines.foldl (fun acc l =>
          if Classify.idLineCond l then Classify.setAdd acc (Classify.idLineCode l) else acc) acc ↔
        c ∈ acc ∨ ∃ l ∈ lines, Classify.idLineCond l = true ∧ Classify.idLineCode l = c) := by
  induction lines with
  | nil =>
    intro acc c
    simp
  | cons l t ih =>
    intro acc c
    rw [List.foldl_cons]
    rw [ih]
    by_cases hc : Classify.idLineCond l = true
    · rw [if_pos hc, mem_setAdd]
      constructor
      · intro hm
        rcases hm with (hm | hm) | hm
        · exact Or.inl hm
        · exact Or.inr ⟨l, by simp, hc, hm.symm⟩
        · rcases hm with ⟨l2, hl2, h1, h2⟩
          exact Or.inr ⟨l2, by simp [hl2], h1, h2⟩
      · intro hm
        rcases hm with hm | ⟨l2, hl2, h1, h2⟩
        · exact Or.inl (Or.inl hm)
        · rcases List.mem_cons.mp hl2 with he | ht
          · subst he
            exact Or.inl (Or.inr h2.symm)
          · exact Or.inr ⟨l2, ht, h1, h2⟩
    · rw [if_neg hc]
      constructor
      · intro hm
        rcases hm with hm | ⟨l2, hl2, h1, h2⟩
        · exact Or.inl hm
        · exact Or.inr ⟨l2, by simp [hl2], h1, h2⟩
      · intro hm
        rcases hm with hm | ⟨l2, hl2, h1, h2⟩
        · exact Or.inl hm
        · rcases List.mem_cons.mp hl2 with he | ht
          · subst he
            exact absurd h1 hc
          · exact Or.inr ⟨l2, ht, h1, h2⟩

/-- C6, amended.  The classifier counts a speaker as a child exactly when its
code is the literal `CHI` or was collected from an `@ID:` metadata line whose
stripped pipe-split has at least three fields, one field exactly equal to
`Target_Child`, and the code at field index 2.  The role map and the child
role vocabulary (`Child`, `Sibling`, `Peer`, ...) are never consulted. -/
theorem c6_child_codes_amended (lines : List String) (c : String) :
    Classify.chaChildCodes lines c = true ↔
      c = "CHI" ∨ ∃ l ∈ lines, Classify.idLineCond l = true ∧ Classify.idLineCode l = c := by
  unfold Classify.chaChildCodes Classify.chaChildIds
  rw [Bool.or_eq_true, beq_iff_eq, contains_iff_mem_str]
  rw [mem_chaChildIds_aux lines [] c]
  simp

/-- C3, amended.  The resolver takes an `@ID:` role from pipe index 6 only:
appending an `@ID:` line updates the map with `parts[2] → parts[6]` exactly
when the line has at least seven pipe fields and both `parts[2]` and
`parts[6]` are non-empty, and otherwise — in particular when the role sits
at index 5 with index 6 empty — contributes nothing. -/
theorem c3_id_role_amended (pre : List String) (line : String)
    (h : pyStartsWith line "@ID:" = true) :
    extract_speakers_from_cha (pre ++ [line]) =
      if 7 ≤ (pySplit line "|").length ∧ (pySplit line "|").getD 2 "" ≠ "" ∧
          (pySplit line "|").getD 6 "" ≠ "" then
        updAssoc (extract_speakers_from_cha pre)
          ((pySplit line "|").getD 2 "") ((pySplit line "|").getD 6 "")
      else extract_speakers_from_cha pre := by
  unfold extract_speakers_from_cha
  rw [List.foldl_append]
  simp only [List.foldl_cons, List.foldl_nil]
  unfold speakersStep
  rw [startsWith_id_not_participants line h, h]
  simp only [Bool.false_eq_true, if_false, if_true]
  by_cases h7 : 7 ≤ (pySplit line "|").length
  · rw [if_pos h7]
    by_cases h26 : (pySplit line "|").getD 2 "" ≠ "" ∧ (pySplit line "|").getD 6 "" ≠ ""
    · rw [if_pos h26, if_pos ⟨h7, h26⟩]
    · rw [if_neg h26, if_neg (fun hx => h26 hx.2)]
  · rw [if_neg h7, if_neg (fun hx => h7 hx.1)]

/-- C3, witness: an `@ID:` line carrying its role at index 6 contributes the
expected entry, via the amended theorem. -/
theorem c3_witness :
    extract_speakers_from_cha ["@ID: a|b|KAT||||Investigator|||\n"] =
      [("KAT", "Investigator")] := by
  have h := c3_id_role_amended [] "@ID: a|b|KAT||||Investigator|||\n" (by decide)
  exact h.trans (by decide)

/-! ## Last-contribution characterization of the role resolver -/

/-- Left-biased choice on options. -/
def orOpt {α : Type} (a b : Option α) : Option α :=
  match a with
  | some x => some x
  | none => b

/-- Uncurried dict assignment. -/
def updOne (m : RoleMap) (pr : String × String) : RoleMap :=
  updAssoc m pr.1 pr.2

/-- The `code → role` pairs one metadata line writes into the dict, in the
order the source writes them. -/
def lineContribs (line : String) : List (String × String) :=
  if pyStartsWith line "@Participants:" then
    (pySplit (pyStrip (afterFirst line ":")) ",").filterMap
      (fun part => pyRsplitOnce (pyStrip part) " ")
  else if pyStartsWith line "@ID:" then
    let parts := pySplit line "|"
    if 7 ≤ parts.length then
      if parts.getD 2 "" ≠ "" ∧ parts.getD 6 "" ≠ "" then
        [(parts.getD 2 "", parts.getD 6 "")]
      else []
    else []
  else []

theorem find?_map_upd_ne (k v c : String) (h : c ≠ k) (t : RoleMap) :
    (t.map (fun p => if p.1 == k then (k, v) else p)).find? (fun p => p.1 == c) =
      t.find? (fun p => p.1 == c) := by
  induction t with
  | nil => rfl
  | cons q t ih =>
    rw [List.map_cons]
    by_cases hq : (q.1 == k) = true
    · rw [if_pos hq]
      have hkc : (((k, v) : String × String).1 == c) = false := by
        simp only [beq_eq_false_iff_ne, ne_eq]
        exact fun hh => h hh.symm
      have hqc : (q.1 == c) = false := by
        rw [beq_iff_eq] at hq
        simp only [beq_eq_false_iff_ne, ne_eq, hq]
        exact fun hh => h hh.symm
      simp only [List.find?_cons, hkc, hqc]
      exact ih
    · rw [if_neg hq]
      by_cases hqc : (q.1 == c) = true
      · simp only [List.find?_cons, hqc]
      · rw [Bool.not_eq_true] at hqc
        simp only [List.find?_cons, hqc]
        exact ih

theorem find?_map_upd_eq (k v : String) (t : RoleMap) :
    (t.map (fun p => if p.1 == k then (k, v) else p)).find? (fun p => p.1 == k) =
      (t.find? (fun p => p.1 == k)).map (fun _ => (k, v)) := by
  induction t with
  | nil => rfl
  | cons q t ih =>
    rw [List.map_cons]
    by_cases hq : (q.1 == k) = true
    · rw [if_pos hq]
      have hkk : (((k, v) : String × String).1 == k) = true := by simp
      simp only [List.find?_cons, hkk, hq]
      rfl
    · rw [if_neg hq]
      rw [Bool.not_eq_true] at hq
      simp only [List.find?_cons, hq]
      exact ih

theorem find?_none_of_any_false (k : String) (m : RoleMap)
    (h : m.any (fun p => p.1 == k) = false) :
    m.find? (fun p => p.1 == k) = none := by
  rw [List.find?_eq_none]
  rw [List.any_eq_false] at h
  exact h

/-- Python dict assignment followed by lookup: the written key reads back the
new value, every other key is untouched. -/
theorem lookup_updAssoc (m : RoleMap) (k v c : String) :
    lookupRole (updAssoc m k v) c = if c = k then some v else lookupRole m c := by
  unfold updAssoc lookupRole
  by_cases ha : m.any (fun p => p.1 == k) = true
  · rw [if_pos ha]
    by_cases hck : c = k
    · subst hck
      rw [find?_map_upd_eq c v m, if_pos rfl]
      rcases hsome : m.find? (fun p => p.1 == c) with _ | q
      · exfalso
        rw [List.find?_eq_none] at hsome
        rw [List.any_eq_true] at ha
        rcases ha with ⟨x, hx, hpx⟩
        exact hsome x hx hpx
      · rw [hsome]
        rfl
    · rw [find?_map_upd_ne k v c hck m, if_neg hck]
  · have ha' : m.any (fun p => p.1 == k) = false := by
      rw [← Bool.not_eq_true]
      exact ha
    rw [if_neg ha]
    rw [find?_append_or]
    by_cases hck : c = k
    · subst hck
      rw [find?_none_of_any_false c m ha', if_pos rfl]
      have hkk : (((c, v) : String × String).1 == c) = true := by simp
      simp only [List.find?_cons, hkk]
      rfl
    · have hkv : (([(k, v)] : RoleMap)).find? (fun p => p.1 == c) = none := by
        have hne : (((k, v) : String × String).1 == c) = false := by
          simp only [beq_eq_false_iff_ne, ne_eq]
          exact fun hh => hck hh.symm
        simp only [List.find?_cons, hne, List.find?_nil]
      rw [if_neg hck]
      cases hm : m.find? (fun p => p.1 == c) with
      | none => rw [hkv]
      | some q => rfl

theorem getLast?_cons_orOpt {α : Type} (a : α) (l : List α) :
    (a :: l).getLast? = orOpt l.getLast? (some a) := by
  cases l with
  | nil => rfl
  | cons b t =>
    rw [List.getLast?_cons_cons]
    rcases h : (b :: t).getLast? with _ | x
    · exact absurd h (by simp)
    · rfl

theorem map_orOpt {α β : Type} (f : α → β) (a b : Option α) :
    (orOpt a b).map f = orOpt (a.map f) (b.map f) := by
  cases a <;> rfl

theorem orOpt_assoc {α : Type} (a b c : Option α) :
    orOpt (orOpt a b) c = orOpt a (orOpt b c) := by
  cases a <;> rfl

theorem orOpt_none_right {α : Type} (a : Option α) : orOpt a none = a := by
  cases a <;> rfl

/-- Folding dict assignments and then looking a key up returns the value of
the last written pair with that key, else reads the prior dict. -/
theorem lookup_foldl_upd (ps : List (String × String)) (c : String) :
    ∀ m : RoleMap, lookupRole (ps.foldl updOne m) c =
      orOpt (((ps.filter (fun p => p.1 == c)).getLast?).map Prod.snd) (lookupRole m c) := by
  induction ps with
  | nil =>
    intro m
    rfl
  | cons q t ih =>
    intro m
    rw [List.foldl_cons, ih]
    by_cases hq : (q.1 == c) = true
    · simp only [List.filter_cons, hq, if_true]
      rw [getLast?_cons_orOpt, map_orOpt, orOpt_assoc]
      congr 1
      show lookupRole (updAssoc m q.1 q.2) c = orOpt (some q.2) (lookupRole m c)
      rw [lookup_updAssoc]
      rw [beq_iff_eq] at hq
      rw [if_pos hq.symm]
      rfl
    · simp only [List.filter_cons, hq, Bool.false_eq_true, if_false]
      congr 1
      show lookupRole (updAssoc m q.1 q.2) c = lookupRole m c
      rw [lookup_updAssoc]
      rw [if_neg (fun hh => hq (by simp [hh]))]

theorem participants_foldl_contribs (parts : List String) :
    ∀ m : RoleMap, parts.foldl participantsStep m =
      (parts.filterMap (fun part => pyRsplitOnce (pyStrip part) " ")).foldl updOne m := by
  induction parts with
  | nil =>
    intro m
    rfl
  | cons q t ih =>
    intro m
    rw [List.foldl_cons, List.filterMap_cons]
    cases hq : pyRsplitOnce (pyStrip q) " " with
    | none =>
      rw [ih]
      congr 1
      unfold participantsStep
      rw [hq]
    | some pr =>
      rw [List.foldl_cons, ih]
      congr 1
      unfold participantsStep
      rw [hq]
      rfl

theorem speakersStep_contribs (m : RoleMap) (line : String) :
    speakersStep m line = (lineContribs line).foldl updOne m := by
  simp only [speakersStep, lineContribs]
  split_ifs with h1 h2 h7 h26 <;> first
    | rfl
    | exact participants_foldl_contribs _ m

theorem extract_speakers_contribs (lines : List String) :
    ∀ m : RoleMap, lines.foldl speakersStep m = (lines.flatMap lineContribs).foldl updOne m := by
  induction lines with
  | nil =>
    intro m
    rfl
  | cons l t ih =>
    intro m
    rw [List.flatMap_cons, List.foldl_append, List.foldl_cons, speakersStep_contribs, ih]

/-- C10.  The role the resolver records for a code is the one written by the
last contributing metadata pair in file order, regardless of whether that
pair came from an `@Participants:` or an `@ID:` line: looking up any code in
the resolved map equals taking the last `code → role` pair for that code in
the concatenated per-line contribution stream. -/
theorem c10_last_contribution_wins (lines : List String) (c : String) :
    lookupRole (extract_speakers_from_cha lines) c =
      (((lines.flatMap lineContribs).filter (fun p => p.1 == c)).getLast?).map Prod.snd := by
  unfold extract_speakers_from_cha
  rw [extract_speakers_contribs lines [], lookup_foldl_upd]
  rw [show lookupRole ([] : RoleMap) c = none from rfl]
  exact orOpt_none_right _

end ChildSpeech
